import Mathlib

/-!
Verification development for the mneme autonomous dual-role supervisor
subsystem (the `mneme auto` command).  The definitions below are shallow
embeddings of the JavaScript source: the result-promise race inside the
turn executors, the interrupt input queue, the supervisor loops, bead
(work-item) selection, setup-time model validation, the SSE line parser,
the event-display reconnect logic, and daemon user-message detection.
-/

-- ── String helpers mirroring JS string operations ───────────────────────────

/-- JS `s.startsWith(pat)` on character lists. -/
def charsStartWith : List Char → List Char → Bool
  | _, [] => true
  | [], _ :: _ => false
  | c :: cs, p :: ps => c == p && charsStartWith cs ps

/-- JS `s.includes(pat)` on character lists. -/
def charsIncludes : List Char → List Char → Bool
  | [], pat => charsStartWith [] pat
  | c :: cs, pat => charsStartWith (c :: cs) pat || charsIncludes cs pat

/-- JS `s.includes(pat)` on strings. -/
def strIncludes (s pat : String) : Bool := charsIncludes s.data pat.data

/-- JS `s.trim()` on character lists (whitespace stripped from both ends). -/
def trimChars (l : List Char) : List Char :=
  ((l.dropWhile Char.isWhitespace).reverse.dropWhile Char.isWhitespace).reverse

/-- JS `s.trim()` on strings. -/
def jsTrim (s : String) : String := String.mk (trimChars s.data)

-- ── Interrupt commands and turn results ─────────────────────────────────────

/-- Tagged commands produced by `createInputQueue` from stdin lines. -/
inductive InterruptCommand
  | quit
  | skip
  | abort
  | status
  | message (text : String)
deriving DecidableEq, Repr

/-- The record resolved by `executeTurnHeadless` / `executeTurnDaemon`. -/
structure TurnResult where
  status : String
  aborted : Bool
  quit : Bool
deriving DecidableEq, Repr

/-- Heartbeat / poll interval of the silence checker (ms). -/
def HEARTBEAT_INTERVAL : Nat := 15000

/-- Soft silence window producing a warning (ms). -/
def SILENCE_WARN : Nat := 30000

/-- Hard silence window triggering auto-abort (ms). -/
def SILENCE_ABORT : Nat := 120000

-- ── The result-promise race inside executeTurnHeadless/Daemon ───────────────

/--
One callback invocation racing toward the result promise:
`streamEnd` is `waitForTurnEnd` resolving with the session status,
`heartbeatTick` is one firing of the silence-check interval with the
computed silence in ms, and `pollTick` is one firing of the input-queue
poll with the commands drained at that tick.
-/
inductive Signal
  | streamEnd (status : String)
  | heartbeatTick (silenceMs : Nat)
  | pollTick (items : List InterruptCommand)
deriving DecidableEq, Repr

/-- The result the poll handler would resolve with for a drained batch:
the first `/quit` or `/abort` command wins, later items are not reached. -/
def pollResolution : List InterruptCommand → Option TurnResult
  | [] => none
  | .quit :: _ => some ⟨"quit", false, true⟩
  | .abort :: _ => some ⟨"aborted", true, false⟩
  | _ :: rest => pollResolution rest

/-- The result a single signal would resolve the race with, if any. -/
def signalResolution : Signal → Option TurnResult
  | .streamEnd s => some ⟨s, false, false⟩
  | .heartbeatTick ms => if SILENCE_ABORT ≤ ms then some ⟨"aborted", true, false⟩ else none
  | .pollTick items => pollResolution items

/-- The resolution of the first signal that resolves, over a whole timeline. -/
def firstResolution (sigs : List Signal) : Option TurnResult :=
  sigs.findSome? signalResolution

/-- State of the executor promise: the `resolved` guard flag, the resolved
result, the one-shot silence warning flag, and the number of
`client.session.abort` calls issued. -/
structure RaceState where
  resolved : Bool
  result : Option TurnResult
  warnedSilence : Bool
  abortCalls : Nat
deriving DecidableEq, Repr

def raceInit : RaceState := ⟨false, none, false, 0⟩

/-- The `done(result)` helper: a no-op when already resolved. -/
def raceDone (st : RaceState) (r : TurnResult) : RaceState :=
  if st.resolved then st else { st with resolved := true, result := some r }

/-- Body of the input-queue poll callback over the drained items: `/quit`
and `/abort` issue a remote abort call and resolve; `/status` displays and
continues; `message`/`skip` are pushed back (queue effect modelled in
`pollRequeue` below). -/
def pollStep (st : RaceState) : List InterruptCommand → RaceState
  | [] => st
  | .quit :: _ => raceDone { st with abortCalls := st.abortCalls + 1 } ⟨"quit", false, true⟩
  | .abort :: _ => raceDone { st with abortCalls := st.abortCalls + 1 } ⟨"aborted", true, false⟩
  | _ :: rest => pollStep st rest

/-- One racing callback.  `abortOk` is the eventual success value of the
fire-and-forget `client.session.abort(...)` call; the code discards it with
`.catch(() => {})`, so it is never read. -/
def raceStep (abortOk : Bool) (st : RaceState) (sig : Signal) : RaceState :=
  match sig with
  | .streamEnd s => raceDone st ⟨s, false, false⟩
  | .heartbeatTick ms =>
    if st.resolved then st
    else if SILENCE_ABORT ≤ ms then
      raceDone { st with abortCalls := st.abortCalls + 1 } ⟨"aborted", true, false⟩
    else if SILENCE_WARN ≤ ms && !st.warnedSilence then { st with warnedSilence := true }
    else st
  | .pollTick items => pollStep st items

/-- The whole race over a timeline of callback firings. -/
def raceRun (abortOk : Bool) (sigs : List Signal) : RaceState :=
  sigs.foldl (raceStep abortOk) raceInit

-- ── Race lemmas ─────────────────────────────────────────────────────────────

theorem pollStep_resolved (st : RaceState) (items : List InterruptCommand)
    (h : st.resolved = true) :
    (pollStep st items).result = st.result ∧ (pollStep st items).resolved = true := by
  induction items with
  | nil => exact ⟨rfl, h⟩
  | cons i rest ih =>
    cases i <;> simp_all [pollStep, raceDone]

theorem raceStep_resolved (ok : Bool) (st : RaceState) (sig : Signal)
    (h : st.resolved = true) :
    (raceStep ok st sig).result = st.result ∧ (raceStep ok st sig).resolved = true := by
  cases sig with
  | streamEnd s => simp [raceStep, raceDone, h]
  | heartbeatTick ms => simp [raceStep, h]
  | pollTick items => exact pollStep_resolved st items h

theorem foldl_raceStep_resolved (ok : Bool) (sigs : List Signal) :
    ∀ st : RaceState, st.resolved = true →
      (sigs.foldl (raceStep ok) st).result = st.result := by
  induction sigs with
  | nil => intro st _; rfl
  | cons sig rest ih =>
    intro st h
    have h2 := raceStep_resolved ok st sig h
    calc ((sig :: rest).foldl (raceStep ok) st).result
        = (rest.foldl (raceStep ok) (raceStep ok st sig)).result := rfl
      _ = (raceStep ok st sig).result := ih _ h2.2
      _ = st.result := h2.1

theorem pollStep_unresolved (st : RaceState) (items : List InterruptCommand)
    (h : st.resolved = false) (h2 : st.result = none) :
    (pollStep st items).result = pollResolution items ∧
      (pollStep st items).resolved = (pollResolution items).isSome := by
  induction items with
  | nil => exact ⟨h2, h⟩
  | cons i rest ih =>
    cases i <;> simp_all [pollStep, pollResolution, raceDone]

theorem raceStep_unresolved (ok : Bool) (st : RaceState) (sig : Signal)
    (h : st.resolved = false) (h2 : st.result = none) :
    (raceStep ok st sig).result = signalResolution sig ∧
      (raceStep ok st sig).resolved = (signalResolution sig).isSome := by
  cases sig with
  | streamEnd s => simp [raceStep, raceDone, signalResolution, h]
  | heartbeatTick ms =>
    by_cases habort : SILENCE_ABORT ≤ ms
    · simp [raceStep, raceDone, signalResolution, h, habort]
    · by_cases hwarn : (SILENCE_WARN ≤ ms && !st.warnedSilence) = true
      · simp [raceStep, signalResolution, h, habort, hwarn, h2]
      · simp [raceStep, signalResolution, h, habort, hwarn, h2]
  | pollTick items => exact pollStep_unresolved st items h h2

theorem foldl_raceStep_unresolved (ok : Bool) (sigs : List Signal) :
    ∀ st : RaceState, st.resolved = false → st.result = none →
      (sigs.foldl (raceStep ok) st).result = firstResolution sigs := by
  induction sigs with
  | nil => intro st _ h2; exact h2
  | cons sig rest ih =>
    intro st h h2
    have hstep := raceStep_unresolved ok st sig h h2
    show (rest.foldl (raceStep ok) (raceStep ok st sig)).result = _
    cases hres : signalResolution sig with
    | some r =>
      have hr : (raceStep ok st sig).resolved = true := by
        rw [hstep.2, hres]; rfl
      rw [foldl_raceStep_resolved ok rest _ hr, hstep.1, hres]
      simp [firstResolution, List.findSome?_cons, hres]
    | none =>
      have hr : (raceStep ok st sig).resolved = false := by
        rw [hstep.2, hres]; rfl
      have hr2 : (raceStep ok st sig).result = none := by rw [hstep.1, hres]
      rw [ih _ hr hr2]
      simp [firstResolution, List.findSome?_cons, hres]

/-- The reported result of the race is exactly the first resolution. -/
theorem raceRun_result (ok : Bool) (sigs : List Signal) :
    (raceRun ok sigs).result = firstResolution sigs :=
  foldl_raceStep_unresolved ok sigs raceInit rfl rfl

theorem pollResolution_status (items : List InterruptCommand) (r : TurnResult)
    (h : pollResolution items = some r) :
    r.status = "quit" ∨ r.status = "aborted" := by
  induction items with
  | nil => simp [pollResolution] at h
  | cons i rest ih =>
    cases i <;> simp_all [pollResolution] <;> subst h <;> simp

theorem findSome?_exists_mem {α β : Type} (f : α → Option β) (b : β) :
    ∀ l : List α, l.findSome? f = some b → ∃ a, a ∈ l ∧ f a = some b := by
  intro l
  induction l with
  | nil => intro h; simp [List.findSome?] at h
  | cons x rest ih =>
    intro h
    rw [List.findSome?_cons] at h
    cases hx : f x with
    | some v =>
      rw [hx] at h
      simp at h
      exact ⟨x, List.mem_cons_self x rest, by rw [hx, h]⟩
    | none =>
      rw [hx] at h
      simp only at h
      obtain ⟨a, ha, hfa⟩ := ih h
      exact ⟨a, List.mem_cons_of_mem x ha, hfa⟩

/--
C1: For every execution of the turn-executor race, the reported outcome is
exactly the result of the first signal that resolves: later signals never
change the reported result (the `resolved` guard plus `clearInterval`
cancel them), so at most one of the three resolvers (stream-derived
completion, interrupt quit/abort, silence timeout) ever produces the
reported outcome.  Amended (see counterexample): the status field of the
reported outcome is `quit` or `aborted` from the interrupt and silence
resolvers, or the raw terminal session status passed through verbatim by
the stream resolver (for example `idle`), not literally one of
completed/aborted/quit/errored.
-/
theorem mneme_c1 (ok : Bool) (sigs : List Signal) (r : TurnResult)
    (h : (raceRun ok sigs).result = some r) :
    firstResolution sigs = some r ∧
      (r.status = "quit" ∨ r.status = "aborted" ∨
        ∃ s, Signal.streamEnd s ∈ sigs ∧ r.status = s) := by
  have hfr : firstResolution sigs = some r := by rw [← raceRun_result ok sigs]; exact h
  refine ⟨hfr, ?_⟩
  obtain ⟨sig, hmem, hres⟩ := findSome?_exists_mem signalResolution r sigs hfr
  cases sig with
  | streamEnd s =>
    right; right
    refine ⟨s, hmem, ?_⟩
    simp [signalResolution] at hres
    rw [← hres]
  | heartbeatTick ms =>
    right; left
    simp [signalResolution] at hres
    rw [← hres.2]
  | pollTick items =>
    simp only [signalResolution] at hres
    rcases pollResolution_status items r hres with h1 | h2
    · exact Or.inl h1
    · exact Or.inr (Or.inl h2)

theorem mneme_c1_witness :
    firstResolution [Signal.streamEnd "idle", Signal.pollTick [InterruptCommand.quit]] =
        some ⟨"idle", false, false⟩ ∧
      (TurnResult.status ⟨"idle", false, false⟩ = "quit" ∨
        TurnResult.status ⟨"idle", false, false⟩ = "aborted" ∨
        ∃ s, Signal.streamEnd s ∈
            [Signal.streamEnd "idle", Signal.pollTick [InterruptCommand.quit]] ∧
          TurnResult.status ⟨"idle", false, false⟩ = s) :=
  mneme_c1 true [Signal.streamEnd "idle", Signal.pollTick [InterruptCommand.quit]]
    ⟨"idle", false, false⟩ (by decide)

theorem mneme_c1_counterexample :
    (raceRun true [Signal.streamEnd "idle"]).result = some ⟨"idle", false, false⟩ ∧
      ¬("idle" = "completed" ∨ "idle" = "aborted" ∨ "idle" = "quit" ∨
        "idle" = "errored") := by
  decide

-- ── Silence-timeout timing (executeTurnHeadless / executeTurnDaemon) ────────

/-- Firing time of the k-th silence-check interval tick after the turn
started (`setInterval` first fires one period after registration). -/
def tickTime (start k : Nat) : Nat := start + (k + 1) * HEARTBEAT_INTERVAL

/-- `silenceMs` as computed by the heartbeat callback at wall-clock time t:
time since the last observed stream output, or since turn start when no
output was ever observed (`lastOut > 0` test). -/
def silenceAt (start lastOut t : Nat) : Nat :=
  if 0 < lastOut then t - lastOut else t - start

/-- The heartbeat signals produced by the first n interval ticks when no
stream activity arrives after `lastOut`. -/
def silenceSignals (start lastOut n : Nat) : List Signal :=
  (List.range n).map fun k => Signal.heartbeatTick (silenceAt start lastOut (tickTime start k))

theorem findSome?_range_succ_eq {β : Type} (f : Nat → Option β) (k : Nat) (b : β)
    (h : ∀ j, j < k → f j = none) (h2 : f k = some b) :
    ((List.range (k + 1)).findSome? f) = some b := by
  induction k with
  | zero => simp [List.range_succ, List.findSome?_cons, h2, List.findSome?]
  | succ n ih =>
    rw [List.range_succ, List.findSome?_append]
    have hnone : (List.range (n + 1)).findSome? f = none := by
      rw [List.findSome?_eq_none_iff]
      intro x hx
      exact h x (List.mem_range.mp hx)
    rw [hnone]
    simp [List.findSome?_cons, h2, List.findSome?]

/--
C2: If no stream activity is observed after `lastOut` during an in-flight
turn, and neither the stream resolver nor an interrupt resolver fires (the
timeline contains only silence-check ticks), then the race resolves
`aborted = true` at an interval tick that lies between the moment the hard
silence window (120 s) is crossed and at most one polling interval (15 s)
after it; no earlier tick resolves.
-/
theorem mneme_c2 (ok : Bool) (start lastOut : Nat)
    (h1 : 0 < lastOut) (h2 : start ≤ lastOut) :
    ∃ k,
      (raceRun ok (silenceSignals start lastOut (k + 1))).result =
          some ⟨"aborted", true, false⟩ ∧
        lastOut + SILENCE_ABORT ≤ tickTime start k ∧
        tickTime start k ≤ lastOut + SILENCE_ABORT + HEARTBEAT_INTERVAL ∧
        ∀ j, j < k →
          signalResolution
              (Signal.heartbeatTick (silenceAt start lastOut (tickTime start j))) =
            none := by
  refine ⟨(lastOut + SILENCE_ABORT - start - 1) / HEARTBEAT_INTERVAL, ?_, ?_, ?_, ?_⟩
  · rw [raceRun_result]
    unfold firstResolution silenceSignals
    rw [List.findSome?_map]
    apply findSome?_range_succ_eq
    · intro j hj
      have hlt : tickTime start j < lastOut + SILENCE_ABORT := by
        unfold tickTime HEARTBEAT_INTERVAL SILENCE_ABORT at *
        omega
      have : silenceAt start lastOut (tickTime start j) < SILENCE_ABORT := by
        unfold silenceAt
        rw [if_pos h1]
        unfold SILENCE_ABORT at *
        omega
      simp only [Function.comp_apply, signalResolution, if_neg (Nat.not_le.mpr this)]
    · have hge : lastOut + SILENCE_ABORT ≤
          tickTime start ((lastOut + SILENCE_ABORT - start - 1) / HEARTBEAT_INTERVAL) := by
        unfold tickTime HEARTBEAT_INTERVAL SILENCE_ABORT at *
        omega
      have : SILENCE_ABORT ≤ silenceAt start lastOut
          (tickTime start ((lastOut + SILENCE_ABORT - start - 1) / HEARTBEAT_INTERVAL)) := by
        unfold silenceAt
        rw [if_pos h1]
        omega
      simp only [Function.comp_apply, signalResolution, if_pos this]
  · unfold tickTime HEARTBEAT_INTERVAL SILENCE_ABORT at *
    omega
  · unfold tickTime HEARTBEAT_INTERVAL SILENCE_ABORT at *
    omega
  · intro j hj
    have hlt : tickTime start j < lastOut + SILENCE_ABORT := by
      unfold tickTime HEARTBEAT_INTERVAL SILENCE_ABORT at *
      omega
    have : silenceAt start lastOut (tickTime start j) < SILENCE_ABORT := by
      unfold silenceAt
      rw [if_pos h1]
      unfold SILENCE_ABORT at *
      omega
    simp only [signalResolution, if_neg (Nat.not_le.mpr this)]

theorem mneme_c2_witness :
    ∃ k,
      (raceRun true (silenceSignals 0 1 (k + 1))).result =
          some ⟨"aborted", true, false⟩ ∧
        1 + SILENCE_ABORT ≤ tickTime 0 k ∧
        tickTime 0 k ≤ 1 + SILENCE_ABORT + HEARTBEAT_INTERVAL ∧
        ∀ j, j < k →
          signalResolution (Signal.heartbeatTick (silenceAt 0 1 (tickTime 0 j))) = none :=
  mneme_c2 true 0 1 (by decide) (by decide)

-- ── Interrupt queue (createInputQueue) and mid-turn requeue ─────────────────

/-- `queue.push(item)`: append to the back of the array. -/
def pushCmd (q : List InterruptCommand) (x : InterruptCommand) : List InterruptCommand :=
  q ++ [x]

/-- `drain()`: `queue.splice(0)` removes and returns everything at once. -/
def drainQueue (q : List InterruptCommand) :
    List InterruptCommand × List InterruptCommand :=
  (q, [])

/-- `pushBack(item)`: `queue.unshift(item)` re-inserts at the front. -/
def pushBackCmd (q : List InterruptCommand) (x : InterruptCommand) : List InterruptCommand :=
  x :: q

/-- Commands that resolve the in-flight turn and stop the poll loop. -/
def isStopCmd : InterruptCommand → Bool
  | .quit => true
  | .abort => true
  | _ => false

/-- Commands the poll loop cannot handle mid-turn and pushes back. -/
def isRequeueCmd : InterruptCommand → Bool
  | .message _ => true
  | .skip => true
  | _ => false

/-- Queue effect of one poll-interval iteration in `executeTurnHeadless`:
the queue was just drained (empty), then each drained item is visited in
order; `quit`/`abort` resolve and stop (remaining items are lost);
`status` is displayed; `message`/`skip` are pushed back at the front. -/
def pollRequeue (q : List InterruptCommand) :
    List InterruptCommand → List InterruptCommand
  | [] => q
  | item :: rest =>
    if isStopCmd item then q
    else if isRequeueCmd item then pollRequeue (pushBackCmd q item) rest
    else pollRequeue q rest

/-- The requeued commands of a drained batch: those before the first
`quit`/`abort`, restricted to `message`/`skip`, in reversed order. -/
def requeuedOf (items : List InterruptCommand) : List InterruptCommand :=
  ((items.takeWhile fun i => !isStopCmd i).filter isRequeueCmd).reverse

theorem foldl_pushCmd (xs : List InterruptCommand) :
    ∀ q, xs.foldl pushCmd q = q ++ xs := by
  induction xs with
  | nil => intro q; simp
  | cons x rest ih => intro q; simp [pushCmd, ih]

/--
C3 (amended): `drain()` atomically removes and returns all queued commands
in arrival order, and `pushBack` re-inserts at the front; but when several
un-handleable commands are drained during one in-flight-turn poll cycle,
pushing each back at the front reverses their relative order, so arrival
order across cycles is preserved only when at most one command is
requeued per drain.
-/
theorem mneme_c3 :
    (∀ xs : List InterruptCommand, drainQueue (xs.foldl pushCmd []) = (xs, [])) ∧
      (∀ q items, pollRequeue q items = requeuedOf items ++ q) ∧
      (∀ q x, pushBackCmd q x = x :: q) := by
  refine ⟨?_, ?_, fun q x => rfl⟩
  · intro xs
    rw [foldl_pushCmd, List.nil_append]
    rfl
  · intro q items
    induction items generalizing q with
    | nil => simp [pollRequeue, requeuedOf]
    | cons item rest ih =>
      by_cases hstop : isStopCmd item = true
      · simp [pollRequeue, hstop, requeuedOf, List.takeWhile]
      · have hstop2 : isStopCmd item = false := by
          cases h : isStopCmd item
          · rfl
          · exact absurd h hstop
        by_cases hreq : isRequeueCmd item = true
        · simp only [pollRequeue, hstop2, if_neg, Bool.false_eq_true, not_false_iff,
            if_false, hreq, if_true]
          rw [ih]
          simp [requeuedOf, List.takeWhile, hstop2, List.filter, hreq, pushBackCmd]
        · have hreq2 : isRequeueCmd item = false := by
            cases h : isRequeueCmd item
            · rfl
            · exact absurd h hreq
          simp only [pollRequeue, hstop2, Bool.false_eq_true, not_false_iff,
            if_false, hreq2]
          rw [ih]
          simp [requeuedOf, List.takeWhile, hstop2, List.filter, hreq2]

/-- C3 counterexample: two messages queued in arrival order `a` then `b`,
drained during an in-flight turn, are requeued as `b` then `a` — the
claimed preservation of arrival order across cycles fails. -/
theorem mneme_c3_counterexample :
    pollRequeue [] [InterruptCommand.message "a", InterruptCommand.message "b"] =
        [InterruptCommand.message "b", InterruptCommand.message "a"] ∧
      [InterruptCommand.message "b", InterruptCommand.message "a"] ≠
        [InterruptCommand.message "a", InterruptCommand.message "b"] := by
  decide

-- ── Bead (work item) selection (pickBeadForPlanner) ─────────────────────────

/-- A bead record as seen by `extractBeadId`: a structured `id` field (from
JSON output) or a free-text `raw` line (from the fallback text parsing). -/
structure Bead where
  id : Option String
  raw : Option String
deriving DecidableEq, Repr

/-- Characters matched by the regex class `[\w-]`. -/
def isWordDash (c : Char) : Bool := c.isAlphanum || c == '_' || c == '-'

/-- First match of the regex `([\w-]+)` in a character list, as used by
`extractBeadId` on `bead.raw`. -/
def firstWordRun : List Char → Option String
  | [] => none
  | c :: cs =>
    if isWordDash c then some (String.mk (c :: cs.takeWhile isWordDash))
    else firstWordRun cs

/-- JS `a || b` over possibly-absent strings (the empty string is falsy). -/
def jsStrOr (a b : Option String) : Option String :=
  match a with
  | some s => if s = "" then b else some s
  | none => b

/-- `extractBeadId(bead)`: `bead.id || bead.raw?.match(/([\w-]+)/)?.[1] || null`. -/
def extractBeadId (b : Bead) : Option String :=
  jsStrOr b.id
    (match b.raw with
     | some r => firstWordRun r.data
     | none => none)

/-- Externally visible actions of the supervisor subsystem, used as the
trace alphabet of the loop and setup models. -/
inductive Act
  | createSession
  | probeCall (spec : String)
  | exitFatal
  | forkDaemon
  | startLoop
  | sendPrompt (role : String)
  | remoteAbort
  | quitSeen
  | claim (beadId : String)
  | waitUser
  | sleepMs (ms : Nat)
deriving DecidableEq, Repr

/-- `buildPlannerBeadPrompt(beadId)`: the planner brief for one bead.  The
instruction text itself is irrelevant to every claim, so the prompt is
modelled by its distinguishing content, the bead id. -/
def buildPlannerBeadPrompt (beadId : String) : String :=
  "PLANNER_BEAD_PROMPT " ++ beadId

/-- The ready-bead half of `pickBeadForPlanner`: claim the first ready bead
via `bd update <id> --status=in_progress`, or return null. -/
def pickFromReady (ready : List Bead) : List Act × Option String :=
  match ready with
  | [] => ([], none)
  | b :: _ =>
    match extractBeadId b with
    | none => ([], none)
    | some beadId => ([Act.claim beadId], some (buildPlannerBeadPrompt beadId))

/-- `pickBeadForPlanner`: resume the first in-progress bead when an id can
be extracted from it (no claim command); otherwise fall through to
claiming the first ready bead; null when nothing is available. -/
def pickBeadForPlanner (inProgress ready : List Bead) : List Act × Option String :=
  match inProgress with
  | b :: _ =>
    match extractBeadId b with
    | some beadId => ([], some (buildPlannerBeadPrompt beadId))
    | none => pickFromReady ready
  | [] => pickFromReady ready

/--
C9 (amended): work-item selection resumes the first in-progress bead when
an id is extractable from it, and this resume issues no claim status-update
command (idempotent); when there is no in-progress bead (or none with an
extractable id — see counterexample) it claims the first ready bead via a
status-update command; it returns null when neither category has entries.
-/
theorem mneme_c9 :
    (∀ (b : Bead) (ip ready : List Bead) (beadId : String),
        extractBeadId b = some beadId →
          pickBeadForPlanner (b :: ip) ready =
            ([], some (buildPlannerBeadPrompt beadId))) ∧
      (∀ (b : Bead) (ready : List Bead) (beadId : String),
          extractBeadId b = some beadId →
            pickBeadForPlanner [] (b :: ready) =
              ([Act.claim beadId], some (buildPlannerBeadPrompt beadId))) ∧
      pickBeadForPlanner [] [] = ([], none) := by
  refine ⟨?_, ?_, rfl⟩
  · intro b ip ready beadId h
    simp [pickBeadForPlanner, h]
  · intro b ready beadId h
    simp [pickBeadForPlanner, pickFromReady, h]

theorem mneme_c9_witness :
    pickBeadForPlanner [⟨some "bead-7", none⟩] [] =
        ([], some (buildPlannerBeadPrompt "bead-7")) ∧
      pickBeadForPlanner [] [⟨some "bead-9", none⟩] =
        ([Act.claim "bead-9"], some (buildPlannerBeadPrompt "bead-9")) :=
  ⟨mneme_c9.1 ⟨some "bead-7", none⟩ [] [] "bead-7" (by decide),
   mneme_c9.2.1 ⟨some "bead-9", none⟩ [] "bead-9" (by decide)⟩

/-- C9 counterexample: an in-progress bead with no extractable id (no `id`
field, raw text without word characters) makes the selector fall through
and claim a ready bead, contradicting the claim that it claims a ready
item only when no in-progress item exists. -/
theorem mneme_c9_counterexample :
    pickBeadForPlanner [⟨none, some "!!!"⟩] [⟨some "b2", none⟩] =
        ([Act.claim "b2"], some (buildPlannerBeadPrompt "b2")) ∧
      ([(⟨none, some "!!!"⟩ : Bead)] ≠ ([] : List Bead)) := by
  constructor
  · decide
  · decide

-- ── Transcript messages (extractMessageText) ────────────────────────────────

/-- One message part: a `type` tag and optional text. -/
structure MPart where
  ty : String
  text : Option String
deriving DecidableEq, Repr

/-- The JS value found in `msg.content`: absent, a string, or an array of
parts. -/
inductive ContentVal
  | absent
  | str (s : String)
  | arr (ps : List MPart)
deriving DecidableEq, Repr

/-- A transcript message as read by `extractMessageText`. -/
structure Msg where
  content : ContentVal
  parts : Option (List MPart)
deriving DecidableEq, Repr

/-- `parts.filter(p => p.type === "text").map(p => p.text || "").join("\n")`. -/
def joinTextParts (ps : List MPart) : String :=
  String.intercalate "\n" ((ps.filter fun p => p.ty == "text").map fun p => p.text.getD "")

/-- `extractMessageText(msg)`: a truthy string `content` is returned as is,
an array `content` is joined over its text parts, otherwise `msg.parts` is
joined; empty string when nothing applies. -/
def extractMessageText (m : Msg) : String :=
  match m.content with
  | .str s =>
    if s = "" then
      match m.parts with
      | some ps => joinTextParts ps
      | none => ""
    else s
  | .arr ps => joinTextParts ps
  | .absent =>
    match m.parts with
    | some ps => joinTextParts ps
    | none => ""

/-- Text of the final transcript message, `""` when the list is empty
(`messages[messages.length - 1]` behind a length guard). -/
def lastMsgText (msgs : List Msg) : String :=
  match msgs.getLast? with
  | some m => extractMessageText m
  | none => ""

-- ── Supervisor loop (headless mode) ─────────────────────────────────────────

/-- The drain at the top of a headless cycle returns as soon as it sees a
`quit` command. -/
def hasQuitCmd (items : List InterruptCommand) : Bool :=
  items.any fun i => i == InterruptCommand.quit

/-- Environment oracle for one iteration of the headless supervisor loop:
the commands drained at the cycle boundary, the bead-tracker snapshots
consulted at the two selection points, the transcript after the planner
turn, and the outcomes of the two turns of the cycle. -/
structure HIter where
  boundary : List InterruptCommand
  inProg : List Bead
  ready : List Bead
  openBeads : List Bead
  plannerOutcome : TurnResult
  messages : List Msg
  inProg2 : List Bead
  ready2 : List Bead
  execOutcome : TurnResult
deriving DecidableEq, Repr

/-- Selection of the planner prompt at the top of a cycle: the user goal on
the very first cycle, bead selection when no goal was given, a review
prompt afterwards. -/
def selectPrompt (goal : Option String) (cycle : Nat) (inProg ready : List Bead) :
    List Act × Option String :=
  if cycle = 0 then
    match goal with
    | some g => ([], some ("PLANNER_GOAL_PROMPT " ++ g))
    | none => pickBeadForPlanner inProg ready
  else ([], some "PLANNER_REVIEW_PROMPT")

/--
Action trace of `supervisorLoopHeadless`, one `HIter` consumed per loop
entry.  A turn whose outcome is `quit` resolved through the poll handler,
which issues the best-effort remote abort before resolving; the loop then
returns without sending any further prompt.
-/
def hLoop (goal : Option String) (maxCycles : Nat) : Nat → List HIter → List Act
  | _, [] => []
  | cycle, it :: rest =>
    if maxCycles ≤ cycle then []
    else if hasQuitCmd it.boundary then [Act.quitSeen]
    else
      let pick : List Act × Option String := selectPrompt goal cycle it.inProg it.ready
      match pick.2 with
      | none =>
        if it.openBeads.isEmpty then pick.1
        else pick.1 ++ [Act.waitUser] ++ hLoop goal maxCycles cycle rest
      | some _ =>
        pick.1 ++ [Act.sendPrompt "planner"] ++
          (if it.plannerOutcome.quit then [Act.remoteAbort, Act.quitSeen]
           else if it.plannerOutcome.aborted then hLoop goal maxCycles (cycle + 1) rest
           else if strIncludes (lastMsgText it.messages) "TASK_DONE" then
             (pickBeadForPlanner it.inProg2 it.ready2).1 ++
               (match (pickBeadForPlanner it.inProg2 it.ready2).2 with
                | none => []
                | some _ => hLoop goal maxCycles 0 rest)
           else
             [Act.sendPrompt "executor"] ++
               (if it.execOutcome.quit then [Act.remoteAbort, Act.quitSeen]
                else hLoop goal maxCycles (cycle + 1) rest))

-- ── Supervisor loop (daemon mode) ───────────────────────────────────────────

/-- Environment oracle for one iteration of the daemon supervisor loop.
The daemon has no input queue; turn outcomes carry only `aborted`. -/
structure DIter where
  inProg : List Bead
  ready : List Bead
  openBeads : List Bead
  plannerAborted : Bool
  messages : List Msg
  inProg2 : List Bead
  ready2 : List Bead
deriving DecidableEq, Repr

/-- Action trace of `supervisorLoopDaemon`, one `DIter` per loop entry.
The pause while a TUI user interacts emits no external action and is
omitted. -/
def dLoop (goal : Option String) (maxCycles : Nat) : Nat → List DIter → List Act
  | _, [] => []
  | cycle, it :: rest =>
    if maxCycles ≤ cycle then []
    else
      let pick : List Act × Option String := selectPrompt goal cycle it.inProg it.ready
      match pick.2 with
      | none =>
        if it.openBeads.isEmpty then pick.1
        else pick.1 ++ [Act.sleepMs 30000] ++ dLoop goal maxCycles cycle rest
      | some _ =>
        pick.1 ++ [Act.sendPrompt "planner"] ++
          (if it.plannerAborted then dLoop goal maxCycles (cycle + 1) rest
           else if strIncludes (lastMsgText it.messages) "TASK_DONE" then
             (pickBeadForPlanner it.inProg2 it.ready2).1 ++
               (match (pickBeadForPlanner it.inProg2 it.ready2).2 with
                | none => []
                | some _ => dLoop goal maxCycles 0 rest)
           else
             [Act.sendPrompt "executor"] ++ dLoop goal maxCycles (cycle + 1) rest)

/--
C4: In both supervisor loops, after a completed (neither quit nor aborted)
planner turn in a review cycle, if the final transcript message contains
the sentinel token TASK_DONE the loop resets the cycle counter to zero and
immediately invokes work-item selection (the selection trace follows the
planner turn, and the continuation runs with cycle 0), terminating when no
next item is available; when the token is absent it proceeds to an
executor turn instead.
-/
theorem mneme_c4 (goal : Option String) (maxC cycle : Nat) (hi : HIter) (di : DIter)
    (hrest : List HIter) (drest : List DIter)
    (hlt : cycle < maxC) (hpos : 0 < cycle)
    (hb : hi.boundary = [])
    (hq : hi.plannerOutcome.quit = false) (ha : hi.plannerOutcome.aborted = false)
    (hda : di.plannerAborted = false) :
    (strIncludes (lastMsgText hi.messages) "TASK_DONE" = true →
      hLoop goal maxC cycle (hi :: hrest) =
        [Act.sendPrompt "planner"] ++
          (pickBeadForPlanner hi.inProg2 hi.ready2).1 ++
            (match (pickBeadForPlanner hi.inProg2 hi.ready2).2 with
             | none => []
             | some _ => hLoop goal maxC 0 hrest)) ∧
      (strIncludes (lastMsgText hi.messages) "TASK_DONE" = false →
        hLoop goal maxC cycle (hi :: hrest) =
          [Act.sendPrompt "planner", Act.sendPrompt "executor"] ++
            (if hi.execOutcome.quit then [Act.remoteAbort, Act.quitSeen]
             else hLoop goal maxC (cycle + 1) hrest)) ∧
      (strIncludes (lastMsgText di.messages) "TASK_DONE" = true →
        dLoop goal maxC cycle (di :: drest) =
          [Act.sendPrompt "planner"] ++
            (pickBeadForPlanner di.inProg2 di.ready2).1 ++
              (match (pickBeadForPlanner di.inProg2 di.ready2).2 with
               | none => []
               | some _ => dLoop goal maxC 0 drest)) ∧
      (strIncludes (lastMsgText di.messages) "TASK_DONE" = false →
        dLoop goal maxC cycle (di :: drest) =
          [Act.sendPrompt "planner", Act.sendPrompt "executor"] ++
            dLoop goal maxC (cycle + 1) drest) := by
  have hnle : ¬ maxC ≤ cycle := Nat.not_le.mpr hlt
  have hnz : ¬ cycle = 0 := Nat.pos_iff_ne_zero.mp hpos
  have hnq : hasQuitCmd hi.boundary = false := by rw [hb]; rfl
  refine ⟨?_, ?_, ?_, ?_⟩
  · intro hdone
    simp [hLoop, selectPrompt, hnle, hnq, hnz, hq, ha, hdone]
  · intro hdone
    simp [hLoop, selectPrompt, hnle, hnq, hnz, hq, ha, hdone]
  · intro hdone
    simp [dLoop, selectPrompt, hnle, hnz, hda, hdone]
  · intro hdone
    simp [dLoop, selectPrompt, hnle, hnz, hda, hdone]

theorem mneme_c4_witness :
    hLoop none 5 1
        [⟨[], [], [], [], ⟨"idle", false, false⟩,
          [⟨ContentVal.str "TASK_DONE", none⟩], [], [], ⟨"idle", false, false⟩⟩] =
      [Act.sendPrompt "planner"] ∧
    dLoop none 5 1
        [⟨[], [], [], false, [⟨ContentVal.str "still working", none⟩], [], []⟩] =
      [Act.sendPrompt "planner", Act.sendPrompt "executor"] :=
  ⟨(mneme_c4 none 5 1
      ⟨[], [], [], [], ⟨"idle", false, false⟩,
        [⟨ContentVal.str "TASK_DONE", none⟩], [], [], ⟨"idle", false, false⟩⟩
      ⟨[], [], [], false, [⟨ContentVal.str "still working", none⟩], [], []⟩
      [] [] (by decide) (by decide) (by decide) (by decide) (by decide)
      (by decide)).1 (by decide),
   (mneme_c4 none 5 1
      ⟨[], [], [], [], ⟨"idle", false, false⟩,
        [⟨ContentVal.str "TASK_DONE", none⟩], [], [], ⟨"idle", false, false⟩⟩
      ⟨[], [], [], false, [⟨ContentVal.str "still working", none⟩], [], []⟩
      [] [] (by decide) (by decide) (by decide) (by decide) (by decide)
      (by decide)).2.2.2 (by decide)⟩

-- ── C5: once quit is observed, no further turn is started ───────────────────

/-- No action in the list sends a prompt (starts a Turn). -/
def noTurnStart (l : List Act) : Bool :=
  l.all fun a =>
    match a with
    | Act.sendPrompt _ => false
    | _ => true

/-- After every observed quit in the trace, no prompt is ever sent. -/
def quitSafe : List Act → Bool
  | [] => true
  | Act.quitSeen :: rest => noTurnStart rest && quitSafe rest
  | _ :: rest => quitSafe rest

theorem quitSafe_append_of (l₁ l₂ : List Act)
    (h1 : Act.quitSeen ∉ l₁) (h2 : quitSafe l₂ = true) :
    quitSafe (l₁ ++ l₂) = true := by
  induction l₁ with
  | nil => exact h2
  | cons a rest ih =>
    have hne : a ≠ Act.quitSeen := fun h => h1 (h ▸ List.mem_cons_self a rest)
    have hrest : Act.quitSeen ∉ rest := fun h => h1 (List.mem_cons_of_mem a h)
    cases a <;> simp_all [quitSafe]

theorem quitSafe_of_not_mem (l : List Act) (h : Act.quitSeen ∉ l) :
    quitSafe l = true := by
  have := quitSafe_append_of l [] h rfl
  simpa using this

theorem selectPrompt_acts (goal : Option String) (cycle : Nat) (ip r : List Bead) :
    (selectPrompt goal cycle ip r).1 = [] ∨
      ∃ b, (selectPrompt goal cycle ip r).1 = [Act.claim b] := by
  unfold selectPrompt
  by_cases hc : cycle = 0
  · cases goal with
    | none =>
      simp only [hc, if_true]
      cases ip with
      | nil =>
        cases r with
        | nil => exact Or.inl rfl
        | cons b rb =>
          cases h : extractBeadId b with
          | none => simp [pickBeadForPlanner, pickFromReady, h]
          | some beadId => simp [pickBeadForPlanner, pickFromReady, h]
      | cons b ri =>
        cases h : extractBeadId b with
        | some beadId => simp [pickBeadForPlanner, h]
        | none =>
          cases r with
          | nil => simp [pickBeadForPlanner, pickFromReady, h]
          | cons b2 rb =>
            cases h2 : extractBeadId b2 with
            | none => simp [pickBeadForPlanner, pickFromReady, h, h2]
            | some beadId2 => simp [pickBeadForPlanner, pickFromReady, h, h2]
    | some g => simp [hc]
  · simp [hc]

theorem quitSeen_not_mem_select (goal : Option String) (cycle : Nat) (ip r : List Bead) :
    Act.quitSeen ∉ (selectPrompt goal cycle ip r).1 := by
  rcases selectPrompt_acts goal cycle ip r with h | ⟨b, h⟩ <;> simp [h]

theorem pickBead_acts (ip r : List Bead) :
    (pickBeadForPlanner ip r).1 = [] ∨
      ∃ b, (pickBeadForPlanner ip r).1 = [Act.claim b] := by
  have := selectPrompt_acts none 0 ip r
  simpa [selectPrompt] using this

theorem quitSeen_not_mem_pick (ip r : List Bead) :
    Act.quitSeen ∉ (pickBeadForPlanner ip r).1 := by
  rcases pickBead_acts ip r with h | ⟨b, h⟩ <;> simp [h]

theorem quitSafe_hLoop (goal : Option String) (maxC : Nat) :
    ∀ (iters : List HIter) (cycle : Nat), quitSafe (hLoop goal maxC cycle iters) = true := by
  intro iters
  induction iters with
  | nil => intro cycle; rfl
  | cons it rest ih =>
    intro cycle
    by_cases h1 : maxC ≤ cycle
    · simp [hLoop, h1, quitSafe]
    · cases h2 : hasQuitCmd it.boundary with
      | true => simp [hLoop, h1, h2, quitSafe, noTurnStart]
      | false =>
        have hn := quitSeen_not_mem_select goal cycle it.inProg it.ready
        cases hp : (selectPrompt goal cycle it.inProg it.ready).2 with
        | none =>
          cases he : it.openBeads.isEmpty with
          | true =>
            simp only [hLoop, if_neg h1, h2, Bool.false_eq_true, if_false, hp, he, if_true]
            exact quitSafe_of_not_mem _ hn
          | false =>
            simp only [hLoop, if_neg h1, h2, Bool.false_eq_true, if_false, hp, he]
            apply quitSafe_append_of
            · simp [List.mem_append, hn]
            · exact ih cycle
        | some p =>
          simp only [hLoop, if_neg h1, h2, Bool.false_eq_true, if_false, hp]
          apply quitSafe_append_of
          · simp [List.mem_append, hn]
          · cases hq : it.plannerOutcome.quit with
            | true => simp [quitSafe, noTurnStart]
            | false =>
              cases ha : it.plannerOutcome.aborted with
              | true =>
                simp only [Bool.false_eq_true, if_false, if_true]
                exact ih (cycle + 1)
              | false =>
                cases hd : strIncludes (lastMsgText it.messages) "TASK_DONE" with
                | true =>
                  simp only [Bool.false_eq_true, if_false, if_true]
                  cases hp2 : (pickBeadForPlanner it.inProg2 it.ready2).2 with
                  | none =>
                    simp only [hp2]
                    rw [List.append_nil]
                    exact quitSafe_of_not_mem _ (quitSeen_not_mem_pick it.inProg2 it.ready2)
                  | some q =>
                    simp only [hp2]
                    exact quitSafe_append_of _ _
                      (quitSeen_not_mem_pick it.inProg2 it.ready2) (ih 0)
                | false =>
                  simp only [Bool.false_eq_true, if_false, List.cons_append,
                    List.nil_append, quitSafe]
                  cases hx : it.execOutcome.quit with
                  | true => simp [quitSafe, noTurnStart]
                  | false =>
                    simp only [Bool.false_eq_true, if_false]
                    exact ih (cycle + 1)

/-- Invariant tying a quit outcome to an issued remote abort call. -/
def raceInv (st : RaceState) : Prop :=
  ∀ r, st.result = some r → r.quit = true → 1 ≤ st.abortCalls

theorem raceDone_inv (st : RaceState) (r' : TurnResult)
    (h : raceInv st) (himp : r'.quit = true → 1 ≤ st.abortCalls) :
    raceInv (raceDone st r') := by
  intro r hr hq
  unfold raceDone at hr ⊢
  by_cases hres : st.resolved = true
  · rw [if_pos hres] at hr ⊢
    exact h r hr hq
  · rw [if_neg hres] at hr ⊢
    simp only at hr
    injection hr with hr
    exact himp (hr ▸ hq)

theorem raceInv_mono (st : RaceState) (n : Nat) (h : raceInv st) :
    raceInv { st with abortCalls := st.abortCalls + n } := by
  intro r hr hq
  have := h r hr hq
  simp only
  omega

theorem pollStep_inv (st : RaceState) (items : List InterruptCommand)
    (h : raceInv st) : raceInv (pollStep st items) := by
  induction items with
  | nil => exact h
  | cons i rest ih =>
    cases i with
    | quit =>
      exact raceDone_inv _ _ (raceInv_mono st 1 h) (fun _ => by simp)
    | abort =>
      exact raceDone_inv _ _ (raceInv_mono st 1 h) (fun hfalse => by cases hfalse)
    | skip => exact ih
    | status => exact ih
    | message t => exact ih

theorem raceStep_inv (ok : Bool) (st : RaceState) (sig : Signal)
    (h : raceInv st) : raceInv (raceStep ok st sig) := by
  cases sig with
  | streamEnd s =>
    exact raceDone_inv _ _ h (fun hfalse => by cases hfalse)
  | heartbeatTick ms =>
    simp only [raceStep]
    by_cases hres : st.resolved = true
    · rw [if_pos hres]; exact h
    · rw [if_neg hres]
      by_cases habort : SILENCE_ABORT ≤ ms
      · rw [if_pos habort]
        exact raceDone_inv _ _ (raceInv_mono st 1 h) (fun hfalse => by cases hfalse)
      · rw [if_neg habort]
        by_cases hwarn : (SILENCE_WARN ≤ ms && !st.warnedSilence) = true
        · rw [if_pos hwarn]
          intro r hr hq
          exact h r hr hq
        · rw [if_neg hwarn]
          exact h
  | pollTick items => exact pollStep_inv st items h

theorem raceRun_inv (ok : Bool) (sigs : List Signal) :
    raceInv (raceRun ok sigs) := by
  have : ∀ st, raceInv st → raceInv (sigs.foldl (raceStep ok) st) := by
    induction sigs with
    | nil => intro st h; exact h
    | cons sig rest ih =>
      intro st h
      exact ih _ (raceStep_inv ok st sig h)
  exact this raceInit (fun r hr _ => by simp [raceInit] at hr)

/--
C5: Once a quit interrupt is observed, no further turn prompt is ever sent:
every trace of the headless supervisor loop sends no prompt after a
`quitSeen` action (quit drained at a cycle boundary stops the loop, quit
during a turn resolves that turn and the loop returns).  When the quit (or
abort) resolves an in-flight turn, a best-effort remote abort call has
been issued, and the success value of that call never influences the race
(the two runs coincide for any pair of outcomes).
-/
theorem mneme_c5 :
    (∀ (goal : Option String) (maxC cycle : Nat) (iters : List HIter),
        quitSafe (hLoop goal maxC cycle iters) = true) ∧
      (∀ (ok : Bool) (sigs : List Signal) (r : TurnResult),
          (raceRun ok sigs).result = some r → r.quit = true →
            1 ≤ (raceRun ok sigs).abortCalls) ∧
      (∀ (ok1 ok2 : Bool) (sigs : List Signal), raceRun ok1 sigs = raceRun ok2 sigs) := by
  refine ⟨fun goal maxC cycle iters => quitSafe_hLoop goal maxC iters cycle,
    fun ok sigs r hr hq => raceRun_inv ok sigs r hr hq,
    fun ok1 ok2 sigs => rfl⟩

theorem mneme_c5_witness :
    quitSafe (hLoop (some "goal") 5 0
        [⟨[InterruptCommand.quit], [], [], [], ⟨"idle", false, false⟩, [], [], [],
          ⟨"idle", false, false⟩⟩]) = true ∧
      1 ≤ (raceRun true [Signal.pollTick [InterruptCommand.quit]]).abortCalls :=
  ⟨mneme_c5.1 (some "goal") 5 0
      [⟨[InterruptCommand.quit], [], [], [], ⟨"idle", false, false⟩, [], [], [],
        ⟨"idle", false, false⟩⟩],
   mneme_c5.2.1 true [Signal.pollTick [InterruptCommand.quit]] ⟨"quit", false, true⟩
     (by decide) (by decide)⟩

-- ── Setup-time model validation (validateModels / runDaemonTuiMode) ─────────

theorem charsStartWith_append_right (p l : List Char) :
    charsStartWith (p ++ l) p = true := by
  induction p with
  | nil => cases l <;> rfl
  | cons c cs ih => simp [charsStartWith, ih]

theorem charsStartWith_extend (l l2 pat : List Char)
    (h : charsStartWith l pat = true) :
    charsStartWith (l ++ l2) pat = true := by
  induction pat generalizing l with
  | nil => cases l ++ l2 <;> rfl
  | cons p ps ih =>
    cases l with
    | nil => simp [charsStartWith] at h
    | cons c cs =>
      simp only [charsStartWith, Bool.and_eq_true] at h
      simp [charsStartWith, h.1, ih cs h.2]

theorem charsIncludes_append_left (l1 l2 pat : List Char)
    (h : charsIncludes l1 pat = true) :
    charsIncludes (l1 ++ l2) pat = true := by
  induction l1 with
  | nil =>
    cases pat with
    | nil => cases l2 <;> rfl
    | cons p ps => simp [charsIncludes, charsStartWith] at h
  | cons c cs ih =>
    simp only [charsIncludes, Bool.or_eq_true] at h ⊢
    rcases h with h | h
    · exact Or.inl (charsStartWith_extend (c :: cs) l2 pat h)
    · exact Or.inr (ih h)

theorem charsIncludes_of_tail (l1 l2 pat : List Char)
    (h : charsIncludes l2 pat = true) :
    charsIncludes (l1 ++ l2) pat = true := by
  induction l1 with
  | nil => exact h
  | cons c cs ih =>
    simp only [List.cons_append, charsIncludes, Bool.or_eq_true]
    exact Or.inr ih

/-- Outcome of one validation probe (`client.session.prompt` with the
candidate model): a clean result, a result whose `info.error` field is
set, or a thrown request error. -/
inductive ProbeOutcome
  | ok
  | errorInfo (msg : String)
  | requestThrow (msg : String)
deriving DecidableEq, Repr

/-- One iteration of the `validateModels` probe loop: a result carrying an
error becomes a thrown `<label> model unavailable: <msg>` error; the catch
rethrows exactly the errors whose message mentions `unavailable` or
`rejected`, and downgrades anything else to a logged warning. -/
def probeAttempt (probe : String → ProbeOutcome) (label spec : String) :
    Except String Unit :=
  let attempt : Except String Unit :=
    match probe spec with
    | .ok => .ok ()
    | .errorInfo msg => .error (label ++ " model unavailable: " ++ msg)
    | .requestThrow msg => .error msg
  match attempt with
  | .ok _ => .ok ()
  | .error m =>
    if strIncludes m "unavailable" || strIncludes m "rejected" then .error m
    else .ok ()

/-- `validateModels`: probe the planner model, then the executor model
unless it is the same spec (the `seen` set); stop at the first fatal
error.  Returns the probe-call trace and the overall outcome. -/
def validateModelsModel (probe : String → ProbeOutcome) (plannerSpec executorSpec : String) :
    List Act × Except String Unit :=
  match probeAttempt probe "Planner" plannerSpec with
  | .error m => ([Act.probeCall plannerSpec], .error m)
  | .ok _ =>
    if executorSpec = plannerSpec then ([Act.probeCall plannerSpec], .ok ())
    else
      match probeAttempt probe "Executor" executorSpec with
      | .error m => ([Act.probeCall plannerSpec, Act.probeCall executorSpec], .error m)
      | .ok _ => ([Act.probeCall plannerSpec, Act.probeCall executorSpec], .ok ())

/-- Setup phase of `runDaemonTuiMode`: create the session, validate the
models, and only on success fork the daemon and start the supervisor loop;
a validation error exits fatally before anything else happens. -/
def runDaemonTuiModeModel (probe : String → ProbeOutcome) (plannerSpec executorSpec : String)
    (goal : Option String) (maxCycles : Nat) (iters : List DIter) : List Act :=
  let v := validateModelsModel probe plannerSpec executorSpec
  Act.createSession :: v.1 ++
    (match v.2 with
     | .error _ => [Act.exitFatal]
     | .ok _ => Act.forkDaemon :: Act.startLoop :: dLoop goal maxCycles 0 iters)

theorem probeAttempt_errorInfo (probe : String → ProbeOutcome) (label spec msg : String)
    (h : probe spec = ProbeOutcome.errorInfo msg) :
    probeAttempt probe label spec =
      .error (label ++ " model unavailable: " ++ msg) := by
  have hinc : strIncludes (label ++ " model unavailable: " ++ msg) "unavailable" = true := by
    unfold strIncludes
    have hdata : (label ++ " model unavailable: " ++ msg).data =
        label.data ++ (" model unavailable: ".data ++ msg.data) := by
      simp [String.data_append]
    rw [hdata]
    apply charsIncludes_of_tail
    apply charsIncludes_append_left
    decide
  simp [probeAttempt, h, hinc]

/--
C7: If the setup-time validation probe records a provider error for the
requested planner or executor model, the run aborts fatally during setup:
the trace ends in the fatal exit, the supervisor loop never starts, and no
in-progress claim status-update command is ever issued.
-/
theorem mneme_c7 (probe : String → ProbeOutcome) (ps es : String)
    (goal : Option String) (maxC : Nat) (iters : List DIter)
    (h : (∃ m, probe ps = ProbeOutcome.errorInfo m) ∨
      (∃ m, probe es = ProbeOutcome.errorInfo m)) :
    (∀ beadId, Act.claim beadId ∉ runDaemonTuiModeModel probe ps es goal maxC iters) ∧
      Act.startLoop ∉ runDaemonTuiModeModel probe ps es goal maxC iters ∧
      Act.exitFatal ∈ runDaemonTuiModeModel probe ps es goal maxC iters := by
  have herr : ∃ m, (validateModelsModel probe ps es).2 = .error m := by
    rcases h with ⟨m, hm⟩ | ⟨m, hm⟩
    · refine ⟨"Planner" ++ " model unavailable: " ++ m, ?_⟩
      unfold validateModelsModel
      rw [probeAttempt_errorInfo probe "Planner" ps m hm]
    · cases hpa : probeAttempt probe "Planner" ps with
      | error m2 =>
        refine ⟨m2, ?_⟩
        unfold validateModelsModel
        rw [hpa]
      | ok _ =>
        by_cases hsame : es = ps
        · exfalso
          rw [hsame] at hm
          rw [probeAttempt_errorInfo probe "Planner" ps m hm] at hpa
          cases hpa
        · refine ⟨"Executor" ++ " model unavailable: " ++ m, ?_⟩
          unfold validateModelsModel
          rw [hpa]
          rw [if_neg hsame]
          rw [probeAttempt_errorInfo probe "Executor" es m hm]
    
  obtain ⟨m, hv⟩ := herr
  have htrace : runDaemonTuiModeModel probe ps es goal maxC iters =
      Act.createSession :: (validateModelsModel probe ps es).1 ++ [Act.exitFatal] := by
    simp only [runDaemonTuiModeModel]
    rw [hv]
  have hacts : (validateModelsModel probe ps es).1 = [Act.probeCall ps] ∨
      (validateModelsModel probe ps es).1 = [Act.probeCall ps, Act.probeCall es] := by
    unfold validateModelsModel
    cases probeAttempt probe "Planner" ps with
    | error m2 => exact Or.inl rfl
    | ok u =>
      by_cases hsame : es = ps
      · rw [if_pos hsame]; exact Or.inl rfl
      · rw [if_neg hsame]
        cases probeAttempt probe "Executor" es with
        | error m2 => exact Or.inr rfl
        | ok u2 => exact Or.inr rfl
  rw [htrace]
  rcases hacts with ha | ha <;> rw [ha] <;>
    exact ⟨fun beadId => by simp, by simp, by simp⟩

theorem mneme_c7_witness :
    (∀ beadId, Act.claim beadId ∉
        runDaemonTuiModeModel (fun _ => ProbeOutcome.errorInfo "no such model")
          "planner-x" "exec-y" none 5 []) ∧
      Act.startLoop ∉
        runDaemonTuiModeModel (fun _ => ProbeOutcome.errorInfo "no such model")
          "planner-x" "exec-y" none 5 [] ∧
      Act.exitFatal ∈
        runDaemonTuiModeModel (fun _ => ProbeOutcome.errorInfo "no such model")
          "planner-x" "exec-y" none 5 [] :=
  mneme_c7 (fun _ => ProbeOutcome.errorInfo "no such model") "planner-x" "exec-y"
    none 5 [] (Or.inl ⟨"no such model", rfl⟩)

-- ── Event-stream reconnect (createEventDisplay / createDaemonEventMonitor) ──

/-- One SSE subscription attempt while the display keeps running: the
events handled before the attempt ends, and whether it ended by throwing
(a transport error) rather than by the display being stopped. -/
structure ConnAttempt where
  events : List Nat
  failed : Bool
deriving DecidableEq, Repr

/-- Externally visible actions of the display/monitor `start` loop. -/
inductive DispAct
  | subscribeCall
  | handled (e : Nat)
  | slept (ms : Nat)
deriving DecidableEq, Repr

/-- The `start()` recursion of `createEventDisplay` and
`createDaemonEventMonitor` while `running` stays true: subscribe, handle
each event, and on a stream error sleep the fixed 2000 ms backoff and
re-subscribe; a non-error end of the iterator stops the loop. -/
def runDisplay : List ConnAttempt → List DispAct
  | [] => []
  | a :: rest =>
    DispAct.subscribeCall :: (a.events.map DispAct.handled) ++
      (if a.failed then DispAct.slept 2000 :: runDisplay rest else [])

/-- Scan ensuring every re-subscription is immediately preceded by the
fixed 2000 ms backoff sleep (the first subscription is exempt). -/
def backoffOkFrom (prev : DispAct) : List DispAct → Bool
  | [] => true
  | b :: rest =>
    (if b == DispAct.subscribeCall then prev == DispAct.slept 2000 else true) &&
      backoffOkFrom b rest

def backoffOk : List DispAct → Bool
  | [] => true
  | b :: rest => backoffOkFrom b rest

theorem backoffOkFrom_handled (evs : List Nat) :
    ∀ (p : DispAct) (tail : List DispAct),
      (∀ q : DispAct, backoffOkFrom q tail = true) →
      backoffOkFrom p (evs.map DispAct.handled ++ tail) = true := by
  induction evs with
  | nil => intro p tail h; exact h p
  | cons e rest ih =>
    intro p tail h
    have hrec := ih (DispAct.handled e) tail h
    simp only [List.map_cons, List.cons_append, backoffOkFrom]
    simp [hrec]

theorem runDisplay_backoff (attempts : List ConnAttempt) :
    backoffOk (runDisplay attempts) = true ∧
      backoffOkFrom (DispAct.slept 2000) (runDisplay attempts) = true := by
  induction attempts with
  | nil => exact ⟨rfl, rfl⟩
  | cons a rest ih =>
    have hshared : ∀ q : DispAct,
        backoffOkFrom q
          (if a.failed then DispAct.slept 2000 :: runDisplay rest else []) = true := by
      intro q
      cases hf : a.failed with
      | false => rfl
      | true =>
        simp only [if_true]
        simp only [backoffOkFrom]
        simp [ih.2]
    constructor
    · simp only [runDisplay, backoffOk]
      exact backoffOkFrom_handled a.events DispAct.subscribeCall _ hshared
    · simp only [runDisplay, backoffOkFrom, List.append_eq]
      rw [backoffOkFrom_handled a.events DispAct.subscribeCall _ hshared]
      simp

/--
C8: On transport failure of the event-stream subscription while the
display or monitor keeps running, the client reconnects automatically
after the fixed 2000 ms backoff — every re-subscription in any trace is
immediately preceded by the backoff sleep — and the failure is non-fatal:
as long as each earlier attempt ended in a transport error (so the retry
path was taken), every event of a later attempt is still handled.
-/
theorem mneme_c8 :
    (∀ attempts : List ConnAttempt, backoffOk (runDisplay attempts) = true) ∧
      (∀ (pre : List ConnAttempt) (a : ConnAttempt) (rest : List ConnAttempt) (e : Nat),
          (∀ p ∈ pre, p.failed = true) → e ∈ a.events →
            DispAct.handled e ∈ runDisplay (pre ++ a :: rest)) := by
  constructor
  · intro attempts
    exact (runDisplay_backoff attempts).1
  · intro pre
    induction pre with
    | nil =>
      intro a rest e _ he
      simp only [List.nil_append, runDisplay]
      right
      apply List.mem_append_left
      exact List.mem_map_of_mem DispAct.handled he
    | cons p pre ih =>
      intro a rest e hall he
      have hp : p.failed = true := hall p (List.mem_cons_self p pre)
      simp only [List.cons_append, runDisplay, hp, if_true]
      right
      apply List.mem_append_right
      right
      exact ih a rest e (fun q hq => hall q (List.mem_cons_of_mem p hq)) he

theorem mneme_c8_witness :
    backoffOk (runDisplay [⟨[], true⟩, ⟨[7], false⟩]) = true ∧
      DispAct.handled 7 ∈ runDisplay ([⟨[], true⟩] ++ ⟨[7], false⟩ :: []) :=
  ⟨mneme_c8.1 [⟨[], true⟩, ⟨[7], false⟩],
   mneme_c8.2 [⟨[], true⟩] ⟨[7], false⟩ [] 7 (by decide) (by decide)⟩

-- ── Daemon user-message detection (createDaemonEventMonitor) ────────────────

/-- The fields of a `message.updated` info record read by the daemon
monitor: the message role and its (possibly absent) parts array. -/
structure UserMsgInfo where
  role : String
  parts : Option (List MPart)
deriving DecidableEq, Repr

/-- The trimmed joined text the monitor computes for a user message; empty
when the message has no parts array. -/
def userMsgText (info : UserMsgInfo) : String :=
  match info.parts with
  | some ps => jsTrim (joinTextParts ps)
  | none => ""

/-- The `message.updated` handler of the daemon monitor: for a user-role
message with parts, the trimmed text is computed and the user-message
callback fires exactly when it is non-empty and not in the set of trimmed
prompt texts the daemon registered via `registerPrompt`. -/
def detectUserMessage (known : List String) (info : UserMsgInfo) : Option String :=
  if info.role = "user" then
    match info.parts with
    | some ps =>
      let text := jsTrim (joinTextParts ps)
      if text ≠ "" ∧ text ∉ known then some text else none
    | none => none
  else none

/--
C10: The daemon distinguishes user-originated messages from its own
prompts solely by exact trimmed-text set membership: for a user-role
message the callback fires if and only if the trimmed text is non-empty
and differs from every registered prompt text, it fires with exactly that
text, and a genuine user message whose trimmed text equals a registered
(trimmed) prompt is never reported.
-/
theorem mneme_c10 (known : List String) (info : UserMsgInfo)
    (hrole : info.role = "user") :
    ((detectUserMessage known info).isSome ↔
        (userMsgText info ≠ "" ∧ userMsgText info ∉ known)) ∧
      detectUserMessage known info =
        (if userMsgText info ≠ "" ∧ userMsgText info ∉ known
         then some (userMsgText info) else none) ∧
      (∀ sentPrompts : List String,
          userMsgText info ∈ sentPrompts.map jsTrim →
            detectUserMessage (sentPrompts.map jsTrim) info = none) := by
  cases hp : info.parts with
  | none =>
    refine ⟨?_, ?_, ?_⟩
    · simp [detectUserMessage, userMsgText, hrole, hp]
    · simp [detectUserMessage, userMsgText, hrole, hp]
    · intro sent hmem
      simp [detectUserMessage, hrole, hp]
  | some ps =>
    have htext : userMsgText info = jsTrim (joinTextParts ps) := by
      simp [userMsgText, hp]
    refine ⟨?_, ?_, ?_⟩
    · by_cases hc : jsTrim (joinTextParts ps) ≠ "" ∧ jsTrim (joinTextParts ps) ∉ known
      · simp [detectUserMessage, hrole, hp, hc, htext]
      · simp [detectUserMessage, hrole, hp, hc, htext]
    · by_cases hc : jsTrim (joinTextParts ps) ≠ "" ∧ jsTrim (joinTextParts ps) ∉ known
      · simp [detectUserMessage, hrole, hp, hc, htext]
      · simp [detectUserMessage, hrole, hp, hc, htext]
    · intro sent hmem
      rw [htext] at hmem
      obtain ⟨x, hx, hxe⟩ := List.mem_map.mp hmem
      simp only [detectUserMessage, hrole, if_pos, hp]
      rw [if_neg]
      intro hcontra
      exact hcontra.2 hmem

theorem mneme_c10_witness :
    detectUserMessage (["restart the build"].map jsTrim)
        ⟨"user", some [⟨"text", some " restart the build "⟩]⟩ = none :=
  (mneme_c10 (["restart the build"].map jsTrim)
      ⟨"user", some [⟨"text", some " restart the build "⟩]⟩ rfl).2.2
    ["restart the build"] (by decide)

-- ── SSE event parsing (subscribeEvents in the HTTP client) ──────────────────

/-- A parsed JSON value, restricted to the shape `subscribeEvents` reads:
for objects only the `type` and `properties` fields matter. -/
inductive JsonVal
  | jobj (ty : Option String) (props : Option JsonVal)
  | jstr (s : String)
  | jnum (n : Int)
  | jbool (b : Bool)
  | jnull

/-- JS truthiness of a parsed JSON value. -/
def jsTruthy : JsonVal → Bool
  | .jobj _ _ => true
  | .jstr s => s != ""
  | .jnum n => n != 0
  | .jbool b => b
  | .jnull => false

/-- The `properties` slot of an event under construction: a parsed JSON
value, or the raw `data:` payload text when `JSON.parse` threw. -/
inductive PropsVal
  | json (v : JsonVal)
  | raw (d : String)

/-- JS truthiness of the `currentEvent.properties` slot (absent = falsy). -/
def propsTruthy : Option PropsVal → Bool
  | none => false
  | some (.json v) => jsTruthy v
  | some (.raw d) => d != ""

/-- JS truthiness of the `currentEvent.type` slot (absent = falsy). -/
def tyTruthy : Option String → Bool
  | none => false
  | some s => s != ""

/-- The `currentEvent` accumulator of the SSE line loop. -/
structure CurEvent where
  ty : Option String
  props : Option PropsVal

def initEv : CurEvent := ⟨none, none⟩

/-- An event yielded to the consumer. -/
structure SseEvent where
  ty : Option String
  props : Option PropsVal

/-- The `currentEvent.type || currentEvent.properties` yield guard. -/
def evTruthy (st : CurEvent) : Bool := tyTruthy st.ty || propsTruthy st.props

/-- Classification of one SSE line, in the order the code tests:
`event:` prefix, `data:` prefix, the empty line, anything else. -/
inductive LineKind
  | eventLine (v : String)
  | dataLine (d : String)
  | blank
  | other
deriving DecidableEq, Repr

def classifyLine (line : List Char) : LineKind :=
  if charsStartWith line "event:".data then .eventLine (String.mk (trimChars (line.drop 6)))
  else if charsStartWith line "data:".data then .dataLine (String.mk (trimChars (line.drop 5)))
  else if line.isEmpty then .blank
  else .other

/-- Merging a successfully parsed `data:` payload into `currentEvent`:
for an object, `type` is adopted when the current one is falsy and the
parsed one truthy, and `properties` becomes `parsed.properties || parsed`;
any non-object value becomes the properties slot directly. -/
def mergeParsed (st : CurEvent) (v : JsonVal) : CurEvent :=
  match v with
  | .jobj oty oprops =>
    ⟨if !tyTruthy st.ty && tyTruthy oty then oty else st.ty,
     some (.json (match oprops with
       | some p => if jsTruthy p then p else JsonVal.jobj oty oprops
       | none => JsonVal.jobj oty oprops))⟩
  | _ => ⟨st.ty, some (.json v)⟩

/-- Processing of one line of the SSE stream, parameterised by the
behaviour of `JSON.parse` (`none` models a thrown parse error, which the
code catches by storing the raw payload text). -/
def procLine (parse : String → Option JsonVal) (st : CurEvent) (line : List Char) :
    List SseEvent × CurEvent :=
  match classifyLine line with
  | .eventLine v => ([], ⟨some v, st.props⟩)
  | .dataLine d =>
    match parse d with
    | some v => ([], mergeParsed st v)
    | none => ([], ⟨st.ty, some (.raw d)⟩)
  | .blank =>
    if evTruthy st then ([⟨st.ty, st.props⟩], initEv) else ([], st)
  | .other => ([], st)

/-- Processing of a sequence of complete lines. -/
def procLines (parse : String → Option JsonVal) :
    List (List Char) → CurEvent → List SseEvent × CurEvent
  | [], st => ([], st)
  | line :: rest, st =>
    ((procLine parse st line).1 ++ (procLines parse rest (procLine parse st line).2).1,
      (procLines parse rest (procLine parse st line).2).2)

/--
C6: A malformed `data:` frame never breaks the parser: the unparseable
payload is kept as raw text and never throws, the frame is yielded with
the raw payload as its properties at the frame boundary, and every
subsequent line is processed exactly as from a fresh parser state, so all
later well-formed frames are still parsed and yielded.
-/
theorem mneme_c6 (parse : String → Option JsonVal) (line : List Char) (d : String)
    (rest : List (List Char))
    (hclass : classifyLine line = LineKind.dataLine d)
    (hparse : parse d = none) (hne : d ≠ "") :
    (∀ st : CurEvent, procLine parse st line = ([], ⟨st.ty, some (.raw d)⟩)) ∧
      procLines parse (line :: ([] : List Char) :: rest) initEv =
        (⟨none, some (PropsVal.raw d)⟩ :: (procLines parse rest initEv).1,
          (procLines parse rest initEv).2) := by
  have hone : ∀ st : CurEvent, procLine parse st line = ([], ⟨st.ty, some (.raw d)⟩) := by
    intro st
    simp [procLine, hclass, hparse]
  refine ⟨hone, ?_⟩
  have hblank : classifyLine ([] : List Char) = LineKind.blank := by decide
  have hyield : procLine parse (⟨none, some (.raw d)⟩ : CurEvent) [] =
      ([⟨none, some (PropsVal.raw d)⟩], initEv) := by
    have htr : evTruthy ⟨none, some (.raw d)⟩ = true := by
      simp [evTruthy, tyTruthy, propsTruthy, hne]
    simp [procLine, hblank, htr]
  simp [procLines, initEv, hone, hyield]

theorem mneme_c6_witness :
    (∀ st : CurEvent,
        procLine (fun _ => none) st "data: oops".data =
          ([], ⟨st.ty, some (.raw "oops")⟩)) ∧
      procLines (fun _ => none) ["data: oops".data, [], "data: 1".data, []] initEv =
        (⟨none, some (PropsVal.raw "oops")⟩ ::
            (procLines (fun _ => none) ["data: 1".data, []] initEv).1,
          (procLines (fun _ => none) ["data: 1".data, []] initEv).2) :=
  mneme_c6 (fun _ => none) "data: oops".data "oops" ["data: 1".data, []]
    (by decide) rfl (by decide)
